import Mathlib

/-!
# Verification of the claudepath move/remap pipeline

Shallow embedding of the `claudepath` Python package (encoder.py, updaters.py,
backup.py, mover.py) and proofs about its specified properties.

Python strings are modelled as Lean `String` values; Python `str` primitives
(`replace`, `in`, `startswith`, slicing) are modelled by explicit functions on
the underlying character lists.  Parsed JSON values are modelled by a mutual
inductive `Json`.  Filesystem state is modelled explicitly per component: file
contents are the parsed data the code manipulates, and every write that the
code guards behind `dry_run` / change checks is guarded identically in the
model.  I/O failures (`OSError`) are injected through explicit fault
parameters at exactly the program points where the code can raise.
-/

namespace Claudepath

/-! ## String primitives (models of Python `str` operations) -/

/-- `pat` occurs as a contiguous run inside `l`. -/
def isInfixCh (pat : List Char) : List Char → Bool
  | [] => pat.isEmpty
  | c :: rest => pat.isPrefixOf (c :: rest) || isInfixCh pat rest

/-- Model of Python `pat in s` (substring containment). -/
def pyContains (s pat : String) : Bool :=
  isInfixCh pat.data s.data

/-- Model of Python `s.startswith(pat)`. -/
def pyStartsWith (s pat : String) : Bool :=
  pat.data.isPrefixOf s.data

/-- Model of Python `s[n:]` (drop the first `n` characters). -/
def pyDrop (s : String) (n : Nat) : String :=
  ⟨s.data.drop n⟩

/-- One fuel-indexed step list for `str.replace(pat, rep)`: replaces every
occurrence of `pat` left to right.  `fuel` bounds the recursion; it is
instantiated with the length of the subject, which suffices because every
step consumes at least one character.  An empty pattern is left alone
(the code never calls `replace` with an empty pattern). -/
def pyReplaceAllAux (pat rep : List Char) : Nat → List Char → List Char
  | 0, l => l
  | _ + 1, [] => []
  | fuel + 1, c :: rest =>
    if pat ≠ [] ∧ pat.isPrefixOf (c :: rest) then
      rep ++ pyReplaceAllAux pat rep fuel ((c :: rest).drop pat.length)
    else
      c :: pyReplaceAllAux pat rep fuel rest

/-- Model of Python `s.replace(pat, rep)`. -/
def pyReplaceAll (s pat rep : String) : String :=
  ⟨pyReplaceAllAux pat.data rep.data s.data.length s.data⟩

/-- Replace the leftmost occurrence of `pat` (model of `s.replace(pat, rep, 1)`
for nonempty `pat`). -/
def pyReplaceFirstCh (pat rep : List Char) : List Char → List Char
  | [] => []
  | c :: rest =>
    if pat ≠ [] ∧ pat.isPrefixOf (c :: rest) then
      rep ++ (c :: rest).drop pat.length
    else
      c :: pyReplaceFirstCh pat rep rest

/-- Model of Python `s.replace(pat, rep, 1)`. -/
def pyReplaceFirst (s pat rep : String) : String :=
  ⟨pyReplaceFirstCh pat.data rep.data s.data⟩

/-! ## encoder.py -/

/-- `encode_path` from encoder.py: `abs_path.replace("/", "-")`. -/
def encode_path (abs_path : String) : String :=
  pyReplaceAll abs_path "/" "-"

/-- The character substitution the encoding is supposed to perform. -/
def encodeChar (c : Char) : Char :=
  if c = '/' then '-' else c

/-! ## JSON values

Parsed JSON data (the result of `json.loads`).  Objects keep their fields in
insertion order, as Python dicts do. -/

mutual
inductive Json where
  | str (s : String)
  | num (n : Int)
  | bool (b : Bool)
  | null
  | arr (items : JsonList)
  | obj (fields : JsonObj)
deriving DecidableEq

inductive JsonList where
  | nil
  | cons (head : Json) (tail : JsonList)
deriving DecidableEq

inductive JsonObj where
  | nil
  | cons (key : String) (val : Json) (tail : JsonObj)
deriving DecidableEq
end

/-! ## updaters.py : `replace_path_values`

The Python function walks a parsed JSON container and mutates, in place,
every string value that is exactly `old` or starts with `old + "/"`,
substituting `new` for that prefix.  The model returns the new value paired
with the `changed` flag.  `rpvItem` is the treatment of one value sitting
inside a container; `replace_path_values` is the top-level entry point,
which leaves non-container arguments untouched (mirroring the early
`return False`). -/

/-- The eligibility test: `val == old or val.startswith(old + "/")`. -/
def pathEligible (old s : String) : Bool :=
  s = old || pyStartsWith s (old ++ "/")

/-- The substitution applied to an eligible value: `new + val[len(old):]`. -/
def pathSubst (old new s : String) : String :=
  new ++ pyDrop s old.length

mutual
def rpvItem (old new : String) : Json → Json × Bool
  | .str s =>
    if pathEligible old s then (.str (pathSubst old new s), true) else (.str s, false)
  | .num n => (.num n, false)
  | .bool b => (.bool b, false)
  | .null => (.null, false)
  | .arr items =>
    let r := rpvList old new items
    (.arr r.1, r.2)
  | .obj fields =>
    let r := rpvObj old new fields
    (.obj r.1, r.2)

def rpvList (old new : String) : JsonList → JsonList × Bool
  | .nil => (.nil, false)
  | .cons x xs =>
    let rx := rpvItem old new x
    let rxs := rpvList old new xs
    (.cons rx.1 rxs.1, rx.2 || rxs.2)

def rpvObj (old new : String) : JsonObj → JsonObj × Bool
  | .nil => (.nil, false)
  | .cons k v rest =>
    let rv := rpvItem old new v
    let rrest := rpvObj old new rest
    (.cons k rv.1 rrest.1, rv.2 || rrest.2)
end

/-- `replace_path_values` from updaters.py applied to a parsed line.
Scalars at top level are returned unchanged with `changed = False`. -/
def replace_path_values (old new : String) (j : Json) : Json × Bool :=
  match j with
  | .arr _ => rpvItem old new j
  | .obj _ => rpvItem old new j
  | _ => (j, false)

/-- The per-value substitution performed by the tree walk. -/
def rpvSub (old new s : String) : String :=
  if pathEligible old s then pathSubst old new s else s

/-! String values occurring at replaceable positions of a JSON value. -/

mutual
def strVals : Json → List String
  | .str s => [s]
  | .num _ => []
  | .bool _ => []
  | .null => []
  | .arr items => strValsL items
  | .obj fields => strValsO fields

def strValsL : JsonList → List String
  | .nil => []
  | .cons x xs => strVals x ++ strValsL xs

def strValsO : JsonObj → List String
  | .nil => []
  | .cons _ v rest => strVals v ++ strValsO rest
end

/-! ## JSON serialization (`json.dumps`)

The claims never inspect the serialized text, only whether and how lines are
rewritten, so the serializer is a straightforward structural printer (string
escaping is not modelled; no claim depends on it). -/

mutual
def dumps : Json → String
  | .str s => "\"" ++ s ++ "\""
  | .num n => toString n
  | .bool b => if b then "true" else "false"
  | .null => "null"
  | .arr items => "[" ++ dumpsL items ++ "]"
  | .obj fields => "\x7b" ++ dumpsO fields ++ "\x7d"

def dumpsL : JsonList → String
  | .nil => ""
  | .cons x .nil => dumps x
  | .cons x xs => dumps x ++ ", " ++ dumpsL xs

def dumpsO : JsonObj → String
  | .nil => ""
  | .cons k v .nil => "\"" ++ k ++ "\": " ++ dumps v
  | .cons k v rest => "\"" ++ k ++ "\": " ++ dumps v ++ ", " ++ dumpsO rest
end

/-! ## updaters.py : `replace_in_file`

A line of a `.jsonl` file is its raw text plus the result of `json.loads` on
the text with trailing newline characters stripped (`none` when parsing
fails).  The loop body of `replace_in_file` is `processLine`; the whole-file
pass accumulating the changed-line count is `replaceInFileCore`. -/

structure LineRec where
  text : String
  parsed : Option Json
deriving DecidableEq

/-- One iteration of the `for line in lines` loop in `replace_in_file`:
returns the output line and whether the line was counted as changed. -/
def processLine (old new : String) (l : LineRec) : LineRec × Bool :=
  if ¬ pyContains l.text old then (l, false)
  else
    match l.parsed with
    | some obj =>
      let r := replace_path_values old new obj
      if r.2 then ({ text := dumps r.1 ++ "\n", parsed := some r.1 }, true)
      else (l, false)
    | none =>
      -- Fallback for non-JSON lines: raw `line.replace(old, new)`
      ({ text := pyReplaceAll l.text old new, parsed := none }, true)

/-- The pure pass of `replace_in_file` over all lines of the file:
the rewritten lines and `lines_changed`. -/
def replaceInFileCore (old new : String) : List LineRec → List LineRec × Nat
  | [] => ([], 0)
  | l :: rest =>
    let r := processLine old new l
    let rr := replaceInFileCore old new rest
    (r.1 :: rr.1, (if r.2 then 1 else 0) + rr.2)

/-- The directory-visible state of one file: its content (`none` when the
file is missing or unreadable) and whether a scratch temporary produced by
`tempfile.mkstemp` is present next to it. -/
structure FileView where
  content : Option (List LineRec)
  tempExists : Bool
deriving DecidableEq

/-- Where, if anywhere, the write phase of `replace_in_file` raises
`OSError`: creating the temp file, writing it, or the final `os.replace`. -/
inductive WriteOutcome where
  | success
  | mkstempFail
  | writeFail
  | replaceFail
deriving DecidableEq

/-- `replace_in_file` from updaters.py, with the write phase's possible
`OSError`s injected through `wo`.  `Except.error ()` models the re-raised
`OSError`; the returned `FileView` is the directory state after the
`except` handler (which unlinks the temp file) has run. -/
def replace_in_file (old new : String) (dryRun : Bool) (wo : WriteOutcome)
    (v : FileView) : FileView × Except Unit Nat :=
  match v.content with
  | none => (v, .ok 0)         -- OSError on open: return 0
  | some lines =>
    let r := replaceInFileCore old new lines
    if 0 < r.2 ∧ ¬ dryRun then
      match wo with
      | .success =>
        -- temp written, then atomically renamed over the original
        ({ content := some r.1, tempExists := false }, .ok r.2)
      | .mkstempFail =>
        -- mkstemp raised before creating the temp; nothing changed
        (v, .error ())
      | .writeFail =>
        -- temp created, write failed, handler unlinked the temp
        ({ content := some lines, tempExists := false }, .error ())
      | .replaceFail =>
        -- temp fully written, os.replace failed, handler unlinked the temp
        ({ content := some lines, tempExists := false }, .error ())
    else
      (v, .ok r.2)

/-! ## updaters.py : sessions-index data

`sessions-index.json` parsed: `originalPath`, and the session entries with
the three fields the code reads (`sessionId`, `projectPath`, `fullPath`).
Missing fields are `none` (Python `entry.get(...)` yields `None`), except
`fullPath`, read with default `""`.  `meta` stands for the opaque metadata
fields the code preserves verbatim. -/

structure SEntry where
  sessionId : Option String
  projectPath : Option String
  fullPath : String
  meta : String
deriving DecidableEq

structure IndexData where
  originalPath : Option String
  entries : List SEntry
  meta : String
deriving DecidableEq

/-- The per-entry path rewrite shared by `update_sessions_index` and
`merge_sessions_index`: `projectPath` is replaced on exact equality with
`old`; `fullPath` has the first occurrence of the old encoded directory
name replaced by the new one whenever it occurs as a substring. -/
def updateEntryPaths (old new oldEnc newEnc : String) (e : SEntry) : SEntry × Bool :=
  let r1 := if e.projectPath = some old then (some new, true) else (e.projectPath, false)
  let r2 :=
    if pyContains e.fullPath oldEnc then (pyReplaceFirst e.fullPath oldEnc newEnc, true)
    else (e.fullPath, false)
  ({ e with projectPath := r1.1, fullPath := r2.1 }, r1.2 || r2.2)

def updateIndexEntries (old new oldEnc newEnc : String) : List SEntry → List SEntry × Bool
  | [] => ([], false)
  | e :: rest =>
    let re := updateEntryPaths old new oldEnc newEnc e
    let rr := updateIndexEntries old new oldEnc newEnc rest
    (re.1 :: rr.1, re.2 || rr.2)

/-- The in-memory transformation of `update_sessions_index` on parsed data. -/
def updateIndexData (old new newEnc : String) (d : IndexData) : IndexData × Bool :=
  let oldEnc := encode_path old
  let r0 := if d.originalPath = some old then (some new, true) else (d.originalPath, false)
  let re := updateIndexEntries old new oldEnc newEnc d.entries
  ({ d with originalPath := r0.1, entries := re.1 }, r0.2 || re.2)

/-- `update_sessions_index` from updaters.py.  The index file state is
`none` when missing or unparseable (both return 0 without writing).  The
write (`index_path.write_text`) can raise when `fault` is set; the model
keeps the pre-write content in that case (the rollback path never reads a
partially written index, so finer write granularity is not modelled). -/
def update_sessions_index (old new newEnc : String) (dryRun fault : Bool)
    (idx : Option IndexData) : Option IndexData × Except Unit Nat :=
  match idx with
  | none => (none, .ok 0)
  | some d =>
    let r := updateIndexData old new newEnc d
    if r.2 ∧ ¬ dryRun then
      if fault then (some d, .error ()) else (some r.1, .ok 1)
    else
      (some d, .ok (if r.2 then 1 else 0))

/-! ## updaters.py : `merge_sessions_index` -/

structure MergeOut where
  index : Option IndexData
  merged : Nat
  warnings : List (Option String)
  written : Bool
deriving DecidableEq

/-- The `for entry in src_data.get("entries", [])` loop: given the set of
destination session ids computed before the loop, returns the entries to
append (in source order, path-rewritten), the merged count, and the ids
warned about as duplicates. -/
def mergeLoop (old new oldEnc newEnc : String) (ids : List (Option String)) :
    List SEntry → List SEntry × Nat × List (Option String)
  | [] => ([], 0, [])
  | e :: rest =>
    let r := mergeLoop old new oldEnc newEnc ids rest
    if ids.contains e.sessionId then (r.1, r.2.1, e.sessionId :: r.2.2)
    else ((updateEntryPaths old new oldEnc newEnc e).1 :: r.1, r.2.1 + 1, r.2.2)

/-- `merge_sessions_index` from updaters.py.  `dst`/`src` are the parsed
destination and source index files (`none` = missing or unparseable; both
return 0).  `index` is the destination file's content afterwards;
`written` records whether the destination file was written. -/
def merge_sessions_index (old new newEnc : String) (dryRun : Bool)
    (dst src : Option IndexData) : MergeOut :=
  match dst, src with
  | some d, some s =>
    let oldEnc := encode_path old
    let ids := d.entries.map (·.sessionId)
    let r := mergeLoop old new oldEnc newEnc ids s.entries
    let op := if d.originalPath = some old then some new else d.originalPath
    let d' := { d with entries := d.entries ++ r.1, originalPath := op }
    if 0 < r.2.1 ∧ ¬ dryRun then
      { index := some d', merged := r.2.1, warnings := r.2.2, written := true }
    else
      { index := some d, merged := r.2.1, warnings := r.2.2, written := false }
  | _, _ => { index := dst, merged := 0, warnings := [], written := false }

/-! ## updaters.py : `update_jsonl_files`

A project directory's log files, in `rglob` order, each with a name and
parsed-line content.  A write fault `some k` makes the write of the `k`-th
file (0-based, counted over all files) raise, as `replace_in_file` does. -/

def updateJsonlLoop (old new : String) (dryRun : Bool) (fault : Option Nat) (k : Nat) :
    List (String × List LineRec) → List (String × List LineRec) × Except Unit (Nat × Nat)
  | [] => ([], .ok (0, 0))
  | (name, lines) :: rest =>
    let wo : WriteOutcome := if fault = some k then .writeFail else .success
    let r := replace_in_file old new dryRun wo { content := some lines, tempExists := false }
    match r.2 with
    | .error e => ((name, lines) :: rest, .error e)
    | .ok c =>
      let newContent := (r.1.content).getD lines
      let rr := updateJsonlLoop old new dryRun fault (k + 1) rest
      match rr.2 with
      | .ok fc => ((name, newContent) :: rr.1, .ok ((if 0 < c then fc.1 + 1 else fc.1), fc.2 + c))
      | .error e => ((name, newContent) :: rr.1, .error e)

/-- `update_jsonl_files` from updaters.py: applies `replace_in_file` to every
`.jsonl` file under the project directory and aggregates
`(files_updated, total_lines_changed)`. -/
def update_jsonl_files (old new : String) (dryRun : Bool) (fault : Option Nat)
    (files : List (String × List LineRec)) :
    List (String × List LineRec) × Except Unit (Nat × Nat) :=
  updateJsonlLoop old new dryRun fault 0 files

/-- `update_history` from updaters.py: `replace_in_file` on the single
global history file (`none` = the file does not exist, returning 0). -/
def update_history (old new : String) (dryRun : Bool) (wo : WriteOutcome)
    (history : Option (List LineRec)) : Option (List LineRec) × Except Unit Nat :=
  let r := replace_in_file old new dryRun wo { content := history, tempExists := false }
  (r.1.content, r.2)

/-! ## Association-list filesystem maps -/

def lookupL {α : Type} : List (String × α) → String → Option α
  | [], _ => none
  | (k', v) :: rest, k => if k' = k then some v else lookupL rest k

def eraseL {α : Type} : List (String × α) → String → List (String × α)
  | [], _ => []
  | p :: rest, k => if p.1 = k then eraseL rest k else p :: eraseL rest k

/-- Store `v` at key `k`.  Writing content identical to what is already
stored leaves the map unchanged (an association list is only a
representation of the directory; re-writing identical bytes must not
perturb it). -/
def setL {α : Type} [DecidableEq α] (l : List (String × α)) (k : String) (v : α) :
    List (String × α) :=
  if lookupL l k = some v then l else (k, v) :: eraseL l k

/-! ## mover.py / backup.py : filesystem state and pipeline -/

/-- A real (user) project directory: opaque content plus whether it is
empty (`any(new_dir.iterdir())`). -/
structure RealDir where
  tag : String
  isEmpty : Bool
deriving DecidableEq

/-- A stored project directory under `~/.claude/projects/<encoded>/`:
its sessions-index file and its `.jsonl` log files. -/
structure ProjDir where
  index : Option IndexData
  logs : List (String × List LineRec)
deriving DecidableEq

/-- A backup snapshot directory with its manifest, as written by
`create_backup`: the original locations and the copies taken. -/
structure BackupRec where
  projectKey : String
  projectCopy : Option ProjDir
  mergeTargetKey : Option String
  mergeTargetCopy : Option ProjDir
  historyCopy : Option (List LineRec)
deriving DecidableEq

/-- The filesystem state the pipeline touches: real directories (keyed by
absolute path), stored project directories (keyed by encoded name), the
global history file, and the backups directory (append-only list, ordered
oldest first; the timestamp of a backup is its position). -/
structure FS where
  realDirs : List (String × RealDir)
  projects : List (String × ProjDir)
  history : Option (List LineRec)
  backups : List BackupRec
deriving DecidableEq

/-- `create_backup` from backup.py: deep-copies the stored dir (if present),
the merge-target dir (if supplied), and the history file (if present), and
records their original locations in the manifest. -/
def create_backup (projects : List (String × ProjDir)) (history : Option (List LineRec))
    (projectKey : String) (extraKey : Option String) : BackupRec :=
  { projectKey := projectKey
    projectCopy := lookupL projects projectKey
    mergeTargetKey := extraKey
    mergeTargetCopy := extraKey.bind (lookupL projects)
    historyCopy := history }

/-- `restore_backup` from backup.py as invoked during rollback: puts the
project-dir copy, merge-target copy, and history copy back at their
manifest locations (the copy steps succeed here; `_atomic_restore_dir`'s
failure behaviour is analysed separately below). -/
def restore_backup_fs (b : BackupRec) (projects : List (String × ProjDir))
    (history : Option (List LineRec)) :
    List (String × ProjDir) × Option (List LineRec) :=
  let p1 := match b.projectCopy with
    | some d => setL projects b.projectKey d
    | none => projects
  let p2 := match b.mergeTargetKey, b.mergeTargetCopy with
    | some k, some d => setL p1 k d
    | _, _ => p1
  let h := match b.historyCopy with
    | some hc => some hc
    | none => history
  (p2, h)

/-- Result record of a move/remap operation (`MoveResult` in mover.py).
`backupPath` is the index of the created backup in `FS.backups`. -/
structure MoveResult where
  project_dir_renamed : Bool := false
  sessions_merged : Nat := 0
  sessions_index_updated : Nat := 0
  jsonl_files_updated : Nat := 0
  jsonl_lines_changed : Nat := 0
  history_lines_changed : Nat := 0
  backupPath : Option Nat := none
  dry_run : Bool := false
deriving DecidableEq

/-- Errors surfaced by the pipeline: `OSError`, `MoveError`, and the
wrapping `MoveError("Move failed: {e}\nChanges have been rolled back.")`. -/
inductive MvErr where
  | osError (msg : String)
  | moveError (msg : String)
  | rolledBack (inner : MvErr)
deriving DecidableEq

/-- Whether an error is the rollback-performed wrapper
(`MoveError("Move failed: ...\nChanges have been rolled back.")`). -/
def MvErr.isRolledBack : MvErr → Bool
  | .rolledBack _ => true
  | _ => false

/-- Injected I/O failure points, one per mutating call from step 5 onward.
`noFault` means every I/O call succeeds. -/
inductive Fault where
  | noFault
  | physMove
  | renameStored
  | mergeWrite
  | mergeCopy
  | indexWrite
  | logWrite (k : Nat)
  | historyWrite
deriving DecidableEq

/-- The per-log-file fault index carried by a `logWrite` fault. -/
def Fault.logFault : Fault → Option Nat
  | .logWrite n => some n
  | _ => none

/-! ## scanner.py : `find_project_dir`

`Path(...).resolve()` is modelled as the identity: the pipeline passes
already-resolved absolute path strings, and a missing index field never
matches. -/

/-- The fallback-scan test on one stored directory's index. -/
def indexMatches (projectPath : String) (d : ProjDir) : Bool :=
  match d.index with
  | none => false
  | some idx =>
    idx.originalPath = some projectPath ||
      (match idx.entries.head? with
       | some e => e.projectPath = some projectPath
       | none => false)

/-- `find_project_dir` from scanner.py: exact encoded-name lookup first,
then the fallback scan over all stored directories.  Returns the key
(encoded directory name) of the match. -/
def find_project_dir (projects : List (String × ProjDir)) (projectPath : String) :
    Option String :=
  match lookupL projects (encode_path projectPath) with
  | some _ => some (encode_path projectPath)
  | none => (projects.find? (fun p => indexMatches projectPath p.2)).map (·.1)

/-! ## mover.py : orchestration -/

structure PrepOut where
  result : MoveResult
  projectKey : Option String
  newEnc : String
deriving DecidableEq

/-- `_prepare_operation` from mover.py: locate the stored directory and,
when one was found and neither dry-run nor no-backup is set, create a
backup (including the merge target when merging into an existing
destination directory). -/
def _prepare_operation (old new : String) (dryRun noBackup merge : Bool) (fs : FS) :
    FS × PrepOut :=
  let projectKey := find_project_dir fs.projects old
  let newEnc := encode_path new
  let res0 : MoveResult := { dry_run := dryRun }
  match projectKey with
  | some pk =>
    if ¬ dryRun ∧ ¬ noBackup then
      let extra := if merge ∧ (lookupL fs.projects newEnc).isSome then some newEnc else none
      let b := create_backup fs.projects fs.history pk extra
      ({ fs with backups := fs.backups ++ [b] },
       { result := { res0 with backupPath := some fs.backups.length },
         projectKey := some pk, newEnc := newEnc })
    else
      (fs, { result := res0, projectKey := some pk, newEnc := newEnc })
  | none => (fs, { result := res0, projectKey := none, newEnc := newEnc })

/-- `_merge_project_dirs`' effect on log files: every file of `src` is
copied into `dst`, overwriting same-named files (`sessions-index.json` is
skipped; it was merged separately). -/
def overwriteLogs (dst src : List (String × List LineRec)) :
    List (String × List LineRec) :=
  src.foldl (fun acc p => setL acc p.1 p.2) dst

/-- `_update_data_files` from mover.py: update the sessions index, the log
files, and the history file, propagating the first `OSError`. -/
def _update_data_files (fault : Fault) (workingKey : Option String)
    (old new newEnc : String) (dryRun : Bool) (res : MoveResult) (fs : FS) :
    FS × Except MvErr MoveResult :=
  let historyStep := fun (fs1 : FS) (res1 : MoveResult) =>
    let wo : WriteOutcome := if fault = .historyWrite then .writeFail else .success
    let r := update_history old new dryRun wo fs1.history
    match r.2 with
    | .error _ => ({ fs1 with history := r.1 }, Except.error (.osError "history write failed"))
    | .ok c => ({ fs1 with history := r.1 }, .ok { res1 with history_lines_changed := c })
  match workingKey.bind (fun k => (lookupL fs.projects k).map (fun d => (k, d))) with
  | some (k, dir) =>
    let ri := update_sessions_index old new newEnc dryRun (fault = .indexWrite) dir.index
    match ri.2 with
    | .error _ => (fs, .error (.osError "index write failed"))
    | .ok idxCount =>
      let fs1 := { fs with projects := setL fs.projects k { dir with index := ri.1 } }
      let rl := update_jsonl_files old new dryRun (Fault.logFault fault) dir.logs
      let fs2 := { fs1 with projects := setL fs1.projects k { dir with index := ri.1, logs := rl.1 } }
      match rl.2 with
      | .error _ => (fs2, .error (.osError "log write failed"))
      | .ok fc =>
        historyStep fs2 { res with sessions_index_updated := idxCount,
                                   jsonl_files_updated := fc.1, jsonl_lines_changed := fc.2 }
  | none => historyStep fs res

/-- `_rename_and_update` from mover.py: rename or merge the stored
directory, then update all data files. -/
def _rename_and_update (fault : Fault) (projectKey : Option String)
    (newEnc old new : String) (dryRun merge : Bool) (res : MoveResult) (fs : FS) :
    FS × Except MvErr MoveResult :=
  match projectKey.bind (fun pk => (lookupL fs.projects pk).map (fun pd => (pk, pd))) with
  | some (pk, pd) =>
    match lookupL fs.projects newEnc with
    | some dstDir =>
      if ¬ merge then
        (fs, .error (.moveError
          ("Destination Claude data directory already exists: " ++ newEnc)))
      else
        let m := merge_sessions_index old new newEnc dryRun dstDir.index pd.index
        if m.written ∧ fault = .mergeWrite then
          (fs, .error (.osError "merge index write failed"))
        else
          let dstDir1 := if m.written then { dstDir with index := m.index } else dstDir
          let fs1 := if m.written then
              { fs with projects := setL fs.projects newEnc dstDir1 } else fs
          let res1 := { res with sessions_merged := m.merged, project_dir_renamed := true }
          if ¬ dryRun then
            if fault = .mergeCopy then (fs1, .error (.osError "merge copy failed"))
            else
              let dstDir2 := { dstDir1 with logs := overwriteLogs dstDir1.logs pd.logs }
              let fs2 := { fs1 with projects := eraseL (setL fs1.projects newEnc dstDir2) pk }
              _update_data_files fault (some newEnc) old new newEnc dryRun res1 fs2
          else
            _update_data_files fault (some newEnc) old new newEnc dryRun res1 fs1
    | none =>
      if ¬ dryRun then
        if fault = .renameStored then (fs, .error (.osError "os.rename failed"))
        else
          let fs1 := { fs with projects := setL (eraseL fs.projects pk) newEnc pd }
          _update_data_files fault (some newEnc) old new newEnc dryRun
            { res with project_dir_renamed := true } fs1
      else
        _update_data_files fault (some newEnc) old new newEnc dryRun
          { res with project_dir_renamed := true } fs
  | none => _update_data_files fault projectKey old new newEnc dryRun res fs

/-- The exception handler's re-raise: a `MoveError` is re-raised as-is,
anything else is wrapped in
`MoveError("Move failed: {e}\nChanges have been rolled back.")`. -/
def wrapErr : MvErr → MvErr
  | .moveError m => .moveError m
  | e => .rolledBack e

/-- The shared rollback of `move_project` / `remap_project`: restore the
backup and, for `move`, put the physically moved directory back. -/
def rollbackFS (movedBack : Bool) (old new : String) (backupPath : Option Nat)
    (dryRun : Bool) (fs2 : FS) : FS :=
  if backupPath.isSome ∧ ¬ dryRun then
    match backupPath.bind (fun i => fs2.backups[i]?) with
    | some b =>
      let rb := restore_backup_fs b fs2.projects fs2.history
      let fsr := { fs2 with projects := rb.1, history := rb.2 }
      if movedBack then
        if (lookupL fsr.realDirs new).isSome ∧ (lookupL fsr.realDirs old).isNone then
          match lookupL fsr.realDirs new with
          | some d => { fsr with realDirs := setL (eraseL fsr.realDirs new) old d }
          | none => fsr
        else fsr
      else fsr
    | none => fs2
  else fs2

/-- `move_project` from mover.py.  Paths arrive already resolved
(`Path(p).resolve()` modelled as the identity on the canonical absolute
path strings of the model). -/
def move_project (fault : Fault) (oldPath newPath : String)
    (dryRun noBackup merge : Bool) (fs : FS) : FS × Except MvErr MoveResult :=
  if oldPath = newPath then
    (fs, .error (.moveError "Source and destination are the same path."))
  else
    match lookupL fs.realDirs oldPath with
    | none => (fs, .error (.moveError "Source directory does not exist"))
    | some oldDir =>
      let destBad := match lookupL fs.realDirs newPath with
        | some d => !d.isEmpty
        | none => false
      if destBad then
        (fs, .error (.moveError "Destination directory already exists and is not empty"))
      else
        let prep := _prepare_operation oldPath newPath dryRun noBackup merge fs
        let tryRes :=
          if ¬ dryRun then
            let fsA := { prep.1 with realDirs := eraseL prep.1.realDirs newPath }
            if fault = .physMove then (fsA, Except.error (MvErr.osError "shutil.move failed"))
            else
              let fsB := { fsA with
                realDirs := setL (eraseL fsA.realDirs oldPath) newPath oldDir }
              _rename_and_update fault prep.2.projectKey prep.2.newEnc oldPath newPath
                dryRun merge prep.2.result fsB
          else
            _rename_and_update fault prep.2.projectKey prep.2.newEnc oldPath newPath
              dryRun merge prep.2.result prep.1
        match tryRes with
        | (fs2, .ok r) => (fs2, .ok r)
        | (fs2, .error e) =>
          (rollbackFS true oldPath newPath prep.2.result.backupPath dryRun fs2,
           .error (wrapErr e))

/-- `remap_project` from mover.py: like `move_project` without the physical
directory move; requires the destination directory to exist. -/
def remap_project (fault : Fault) (oldPath newPath : String)
    (dryRun noBackup merge : Bool) (fs : FS) : FS × Except MvErr MoveResult :=
  if oldPath = newPath then
    (fs, .error (.moveError "Source and destination are the same path."))
  else if (lookupL fs.realDirs newPath).isNone then
    (fs, .error (.moveError "Destination directory does not exist"))
  else
    let prep := _prepare_operation oldPath newPath dryRun noBackup merge fs
    let tryRes := _rename_and_update fault prep.2.projectKey prep.2.newEnc oldPath newPath
      dryRun merge prep.2.result prep.1
    match tryRes with
    | (fs2, .ok r) => (fs2, .ok r)
    | (fs2, .error e) =>
      (rollbackFS false oldPath newPath prep.2.result.backupPath dryRun fs2,
       .error (wrapErr e))

/-! ## backup.py : `_atomic_restore_dir`

The rename-aside restore of one directory.  `DirState` is the pair of
sibling locations involved: the live target and the
`<name>.claudepath-old` aside location.  `CopyOutcome` captures how
`shutil.copytree(backup_src, target)` can end: full success; raising
before the target directory was created (e.g. `os.makedirs` fails); or
raising after having created the target with only part of the content
copied (`shutil.copytree` collects per-file errors and raises at the end,
an `OSError` subclass, leaving the partially copied tree in place). -/

structure DirState where
  target : Option ProjDir
  aside : Option ProjDir
deriving DecidableEq

inductive CopyOutcome where
  | success
  | cleanFail
  | midFail (copied : ProjDir)
deriving DecidableEq

/-- `_atomic_restore_dir` from backup.py. -/
def _atomic_restore_dir (backup_src : ProjDir) (co : CopyOutcome) (st : DirState) :
    DirState × Bool :=
  match st.target with
  | some t =>
    -- temp_old is set: any stale aside is removed, the target renamed aside
    match co with
    | .success =>
      -- copytree succeeded; the aside copy is cleaned up
      ({ target := some backup_src, aside := none }, true)
    | .cleanFail =>
      -- copytree raised with no target created; `not target.exists()` holds,
      -- so the handler renames the aside copy back into place
      ({ target := some t, aside := none }, false)
    | .midFail copied =>
      -- copytree raised after creating a partial target; `target.exists()`
      -- holds, so the handler leaves the aside copy where it is
      ({ target := some copied, aside := some t }, false)
  | none =>
    -- temp_old is None: nothing was renamed aside
    match co with
    | .success => ({ target := some backup_src, aside := st.aside }, true)
    | .cleanFail => (st, false)
    | .midFail copied => ({ target := some copied, aside := st.aside }, false)

/-! Concrete fixtures used to instantiate theorems with hypotheses. -/

def sampleRealDir : RealDir := { tag := "d", isEmpty := false }

def sampleProjDir : ProjDir := { index := none, logs := [] }

/-- A state whose stored data has directories at both the old and the new
encoded names (a merge conflict waiting to happen). -/
def conflictFS : FS :=
  { realDirs := [("/p/old", sampleRealDir)]
    projects := [("-p-old", sampleProjDir), ("-p-new", sampleProjDir)]
    history := none
    backups := [] }

/-- A state whose old path is not tracked by any stored project directory
but does occur in the history file. -/
def untrackedFS : FS :=
  { realDirs := [("/p/old", sampleRealDir)]
    projects := []
    history := some [{ text := "x /p/old\n", parsed := none }]
    backups := [] }

/-! # Lemmas about the association-list maps -/

theorem pyReplaceAllAux_single_char (c r : Char) :
    ∀ (fuel : Nat) (l : List Char), l.length ≤ fuel →
      pyReplaceAllAux [c] [r] fuel l = l.map (fun x => if x = c then r else x) := by
  intro fuel
  induction fuel with
  | zero =>
    intro l hl
    cases l with
    | nil => simp [pyReplaceAllAux]
    | cons x xs => simp at hl
  | succ n ih =>
    intro l hl
    cases l with
    | nil => simp [pyReplaceAllAux]
    | cons x xs =>
      simp only [pyReplaceAllAux]
      by_cases hx : x = c
      · subst hx
        have hpre : [x].isPrefixOf (x :: xs) = true := by
          simp [List.isPrefixOf]
        rw [if_pos ⟨by simp, hpre⟩]
        simp only [List.length_cons] at hl
        simp [ih xs (Nat.le_of_succ_le_succ hl)]
      · have hpre : [c].isPrefixOf (x :: xs) = false := by
          simp [List.isPrefixOf, Ne.symm hx]
        rw [if_neg (by simp [hpre])]
        simp only [List.length_cons] at hl
        simp [ih xs (Nat.le_of_succ_le_succ hl), hx]

theorem encode_path_data (s : String) :
    (encode_path s).data = s.data.map encodeChar := by
  simpa [encode_path, pyReplaceAll, encodeChar] using
    pyReplaceAllAux_single_char '/' '-' s.data.length s.data (le_refl _)


theorem lookupL_eraseL_self {α : Type} (l : List (String × α)) (k : String) :
    lookupL (eraseL l k) k = none := by
  induction l with
  | nil => rfl
  | cons p rest ih =>
    by_cases h : p.1 = k
    · simpa [eraseL, h] using ih
    · simpa [eraseL, h, lookupL] using ih

theorem lookupL_eraseL_ne {α : Type} (l : List (String × α)) (k k' : String)
    (h : k' ≠ k) : lookupL (eraseL l k) k' = lookupL l k' := by
  induction l with
  | nil => rfl
  | cons p rest ih =>
    by_cases hp : p.1 = k
    · have hpk : p.1 ≠ k' := by rw [hp]; exact Ne.symm h
      simpa [eraseL, hp, lookupL, hpk, Ne.symm h] using ih
    · by_cases hp' : p.1 = k'
      · simp [eraseL, hp, lookupL, hp', h]
      · simpa [eraseL, hp, lookupL, hp'] using ih

theorem lookupL_setL_self {α : Type} [DecidableEq α] (l : List (String × α))
    (k : String) (v : α) : lookupL (setL l k v) k = some v := by
  by_cases h : lookupL l k = some v
  · simp [setL, h]
  · simp [setL, h, lookupL]

theorem lookupL_setL_ne {α : Type} [DecidableEq α] (l : List (String × α))
    (k k' : String) (v : α) (h : k' ≠ k) :
    lookupL (setL l k v) k' = lookupL l k' := by
  by_cases hl : lookupL l k = some v
  · simp [setL, hl]
  · have : k ≠ k' := fun hc => h hc.symm
    simp [setL, hl, lookupL, this, lookupL_eraseL_ne l k k' h]

theorem lookupL_isSome_of_find? {α : Type} (l : List (String × α))
    (p : String × α → Bool) (x : String × α) (h : l.find? p = some x) :
    (lookupL l x.1).isSome := by
  induction l with
  | nil => simp [List.find?] at h
  | cons q rest ih =>
    by_cases hq : p q = true
    · rw [List.find?_cons_of_pos _ hq] at h
      cases h
      simp [lookupL]
    · rw [List.find?_cons_of_neg _ hq] at h
      by_cases hk : q.1 = x.1
      · simp [lookupL, hk]
      · simpa [lookupL, hk] using ih h

/-! # C8 : the path encoder -/

/-- C8: `encode_path` maps every character through the substitution that
sends `/` to `-` and fixes everything else, so every separator is replaced
and no other character (dots, pre-existing hyphens, ...) is altered; it is
a pure total Lean function, hence deterministic; and `encode_path "/"`
is the sentinel `"-"`. -/
theorem encode_replaces_only_separators (s : String) :
    (encode_path s).data = s.data.map encodeChar ∧
    (∀ c ∈ s.data, c ≠ '/' → encodeChar c = c) ∧
    encodeChar '/' = '-' ∧
    encode_path "/" = "-" := by
  refine ⟨encode_path_data s, fun c _ hc => by simp [encodeChar, hc], rfl, ?_⟩
  decide

/-! # C1 : `_atomic_restore_dir` -/

/-- C1 counterexample: force the restore's copy to fail after it created a
partial target.  The handler sees `target.exists()` and does not move the
aside copy back: the target is left holding the half-written copy, not the
original contents, refuting the claim that after any failed copy the
original target directory is back in place unmodified. -/
theorem atomic_restore_halfwritten_on_midfail :
    (_atomic_restore_dir { index := none, logs := [("bak.jsonl", [])] }
        (.midFail { index := none, logs := [] })
        { target := some { index := none, logs := [("keep.jsonl", [])] }, aside := none }) =
      ({ target := some { index := none, logs := [] },
         aside := some { index := none, logs := [("keep.jsonl", [])] } }, false) ∧
    ({ index := none, logs := [] } : ProjDir) ≠
      { index := none, logs := [("keep.jsonl", [])] } := by
  exact ⟨rfl, by decide⟩

/-- C1 amended: when the pre-existing target was moved aside, a copy
failure that created no target is recovered by renaming the aside copy
back, leaving the target exactly its prior contents; a successful copy
installs the backup and removes the aside copy; but a copy failure that
left a partially copied target keeps the partial copy at the target and
leaves the prior contents at the sibling aside location (they are not
lost, but the target is half-written). -/
theorem atomic_restore_dir_spec (bak t : ProjDir) (st : DirState)
    (h : st.target = some t) :
    (_atomic_restore_dir bak .success st = ({ target := some bak, aside := none }, true)) ∧
    (_atomic_restore_dir bak .cleanFail st = ({ target := some t, aside := none }, false)) ∧
    (∀ copied, _atomic_restore_dir bak (.midFail copied) st =
      ({ target := some copied, aside := some t }, false)) := by
  refine ⟨?_, ?_, fun copied => ?_⟩ <;> simp [_atomic_restore_dir, h]

theorem atomic_restore_dir_spec_witness :
    _atomic_restore_dir { index := none, logs := [] } CopyOutcome.cleanFail
      { target := some { index := none, logs := [("a.jsonl", [])] }, aside := none } =
      ({ target := some { index := none, logs := [("a.jsonl", [])] }, aside := none },
       false) :=
  (atomic_restore_dir_spec { index := none, logs := [] }
    { index := none, logs := [("a.jsonl", [])] } _ rfl).2.1

/-! # C4 : the exact-or-prefix replacement rule -/

mutual
theorem rpvItem_strVals (old new : String) :
    ∀ j : Json, strVals (rpvItem old new j).1 = (strVals j).map (rpvSub old new) ∧
      (rpvItem old new j).2 = (strVals j).any (pathEligible old)
  | .str s => by
    by_cases h : pathEligible old s <;> simp [rpvItem, strVals, rpvSub, h]
  | .num n => by simp [rpvItem, strVals]
  | .bool b => by simp [rpvItem, strVals]
  | .null => by simp [rpvItem, strVals]
  | .arr items => by
    have h := rpvList_strVals old new items
    simp [rpvItem, strVals, h.1, h.2]
  | .obj fields => by
    have h := rpvObj_strVals old new fields
    simp [rpvItem, strVals, h.1, h.2]

theorem rpvList_strVals (old new : String) :
    ∀ l : JsonList, strValsL (rpvList old new l).1 = (strValsL l).map (rpvSub old new) ∧
      (rpvList old new l).2 = (strValsL l).any (pathEligible old)
  | .nil => by simp [rpvList, strValsL]
  | .cons x xs => by
    have h1 := rpvItem_strVals old new x
    have h2 := rpvList_strVals old new xs
    simp [rpvList, strValsL, h1.1, h1.2, h2.1, h2.2]

theorem rpvObj_strVals (old new : String) :
    ∀ o : JsonObj, strValsO (rpvObj old new o).1 = (strValsO o).map (rpvSub old new) ∧
      (rpvObj old new o).2 = (strValsO o).any (pathEligible old)
  | .nil => by simp [rpvObj, strValsO]
  | .cons k v rest => by
    have h1 := rpvItem_strVals old new v
    have h2 := rpvObj_strVals old new rest
    simp [rpvObj, strValsO, h1.1, h1.2, h2.1, h2.2]
end

/-- C4 counterexample: the sessions-index rewrite replaces `originalPath`
(and `projectPath`) only on exact equality with the old path, so a value
that begins with the old path followed by the separator — eligible under
the claimed rule — is left unchanged by that rewrite operation. -/
theorem index_rewrite_ignores_prefix_values :
    pathEligible "/tmp/foo" "/tmp/foo/subdir" = true ∧
    (updateIndexData "/tmp/foo" "/tmp/bar" "-tmp-bar"
        { originalPath := some "/tmp/foo/subdir", entries := [], meta := "" }).1 =
      { originalPath := some "/tmp/foo/subdir", entries := [], meta := "" } ∧
    ("/tmp/foo/subdir" : String) ≠ "/tmp/bar/subdir" := by
  exact ⟨by decide, by decide, by decide⟩

/-- C4 amended: the exact-or-prefix rule holds for the recursive tree walk
(`replace_path_values`) used on structured log and history records: a
string value of the record is replaced iff it equals the old path or
starts with old path + `/`, the replacement substitutes the new path for
exactly that prefix, and untouched values (such as `/tmp/foobar`) are kept
verbatim while `/tmp/foo/subdir` becomes `/tmp/bar/subdir`.  (The index
and merge rewrites instead use exact equality for `projectPath` /
`originalPath` and first-occurrence substring replacement of the encoded
name for `fullPath`.) -/
theorem replace_path_values_prefix_rule (old new : String) (fields : JsonObj) :
    strVals (replace_path_values old new (.obj fields)).1 =
      (strVals (.obj fields)).map (rpvSub old new) ∧
    (replace_path_values old new (.obj fields)).2 =
      (strVals (.obj fields)).any (pathEligible old) ∧
    (∀ s : String, pathEligible old s = true →
      rpvSub old new s = new ++ pyDrop s old.length) ∧
    (∀ s : String, pathEligible old s = false → rpvSub old new s = s) ∧
    replace_path_values "/tmp/foo" "/tmp/bar"
        (.obj (.cons "a" (.str "/tmp/foobar")
          (.cons "b" (.str "/tmp/foo/subdir") .nil))) =
      (.obj (.cons "a" (.str "/tmp/foobar")
          (.cons "b" (.str "/tmp/bar/subdir") .nil)), true) := by
  have h := rpvItem_strVals old new (.obj fields)
  refine ⟨h.1, h.2, fun s hs => by simp [rpvSub, hs, pathSubst],
    fun s hs => by simp [rpvSub, hs], by decide⟩

/-! # C5 : atomic per-file rewrite -/

/-- C5: with at least one changed line and dry-run off, a successful run
installs exactly the rewritten content and leaves no temporary behind; on
a write failure at any phase (temp creation, writing, or the final
rename) the original content is untouched and the temporary is discarded;
and with zero changed lines nothing is written at all. -/
theorem replace_in_file_atomic_swap (old new : String) (lines : List LineRec)
    (v : FileView) (h1 : v.content = some lines) (h2 : v.tempExists = false) :
    (0 < (replaceInFileCore old new lines).2 →
      replace_in_file old new false .success v =
        ({ content := some (replaceInFileCore old new lines).1, tempExists := false },
         .ok (replaceInFileCore old new lines).2) ∧
      (∀ wo, wo ≠ WriteOutcome.success →
        replace_in_file old new false wo v =
          ({ content := some lines, tempExists := false }, .error ()))) ∧
    ((replaceInFileCore old new lines).2 = 0 →
      ∀ wo, replace_in_file old new false wo v = (v, .ok 0)) := by
  cases v with
  | mk c te =>
    cases h1
    cases h2
    constructor
    · intro hpos
      constructor
      · simp [replace_in_file, hpos]
      · intro wo hwo
        cases wo with
        | success => exact absurd rfl hwo
        | mkstempFail => simp [replace_in_file, hpos]
        | writeFail => simp [replace_in_file, hpos]
        | replaceFail => simp [replace_in_file, hpos]
    · intro hzero wo
      simp [replace_in_file, hzero]

theorem replace_in_file_atomic_swap_witness :
    replace_in_file "/old" "/new" false .writeFail
      { content := some [{ text := "cd /old\n", parsed := none }], tempExists := false } =
      ({ content := some [{ text := "cd /old\n", parsed := none }], tempExists := false },
       .error ()) :=
  ((replace_in_file_atomic_swap "/old" "/new"
      [{ text := "cd /old\n", parsed := none }] _ rfl rfl).1
    (by decide)).2 _ (by decide)

/-! # C7 : log rewrite counts -/

theorem replaceInFileCore_count_le (old new : String) (lines : List LineRec) :
    (replaceInFileCore old new lines).2 ≤ lines.length := by
  induction lines with
  | nil => simp [replaceInFileCore]
  | cons l rest ih =>
    simp only [replaceInFileCore, List.length_cons]
    by_cases h : (processLine old new l).2 <;> simp [h] <;> omega

theorem replace_in_file_success_eq (old new : String) (d : Bool) (lines : List LineRec) :
    replace_in_file old new d .success { content := some lines, tempExists := false } =
      ({ content := some (if 0 < (replaceInFileCore old new lines).2 ∧ ¬ d
                          then (replaceInFileCore old new lines).1 else lines),
         tempExists := false }, .ok (replaceInFileCore old new lines).2) := by
  by_cases h : 0 < (replaceInFileCore old new lines).2 ∧ ¬ (d = true)
  · simp only [replace_in_file]
    rw [if_pos h, if_pos h]
  · simp only [replace_in_file]
    rw [if_neg h, if_neg h]

theorem updateJsonlLoop_counts (old new : String) (d : Bool) (k : Nat)
    (files : List (String × List LineRec)) :
    (updateJsonlLoop old new d none k files).2 =
      .ok ((files.filter (fun f => decide (0 < (replaceInFileCore old new f.2).2))).length,
           (files.map (fun f => (replaceInFileCore old new f.2).2)).sum) := by
  induction files generalizing k with
  | nil => simp [updateJsonlLoop]
  | cons f rest ih =>
    obtain ⟨name, lines⟩ := f
    have hwo : (if (none : Option Nat) = some k then WriteOutcome.writeFail
        else WriteOutcome.success) = WriteOutcome.success := by simp
    have ihk := ih (k + 1)
    cases hrr : (updateJsonlLoop old new d none (k + 1) rest).2 with
    | ok fc =>
      rw [hrr] at ihk
      cases ihk
      by_cases h : 0 < (replaceInFileCore old new lines).2
      · simp [updateJsonlLoop, hwo, replace_in_file_success_eq, hrr, h,
          List.filter_cons, Nat.add_comm]
      · have hz : (replaceInFileCore old new lines).2 = 0 := by omega
        simp [updateJsonlLoop, hwo, replace_in_file_success_eq, hrr, h, hz,
          List.filter_cons]
    | error e => rw [hrr] at ihk; cases ihk

theorem processLine_changed_only_if (old new : String) (l : LineRec)
    (h : (processLine old new l).2 = true) :
    pyContains l.text old = true ∧
    ∀ j, l.parsed = some j → (replace_path_values old new j).2 = true := by
  by_cases hc : pyContains l.text old = true
  · refine ⟨hc, fun j hj => ?_⟩
    by_cases hr : (replace_path_values old new j).2 = true
    · exact hr
    · rw [show (processLine old new l).2 = false by
        simp [processLine, hc, hj, hr]] at h
      cases h
  · rw [show (processLine old new l).2 = false by simp [processLine, hc]] at h
    cases h

/-- C7: for a log-rewrite run with no I/O failure, the reported
`files_updated` is exactly the number of files whose changed-line count is
positive (and the reported total is the sum of the per-file counts); each
per-file count is bounded by the file's number of lines; and a line is
counted as changed only when a replacement actually occurred in it: the
old path occurs in the line's raw text and, when the line parses as a
structured record, the tree walk really replaced an eligible value. -/
theorem update_jsonl_files_line_counts (old new : String) (dryRun : Bool)
    (files : List (String × List LineRec)) :
    (update_jsonl_files old new dryRun none files).2 =
      .ok ((files.filter (fun f => decide (0 < (replaceInFileCore old new f.2).2))).length,
           (files.map (fun f => (replaceInFileCore old new f.2).2)).sum) ∧
    (∀ f ∈ files, (replaceInFileCore old new f.2).2 ≤ f.2.length) ∧
    (∀ l : LineRec, (processLine old new l).2 = true →
      pyContains l.text old = true ∧
      ∀ j, l.parsed = some j → (replace_path_values old new j).2 = true ∧
        (strVals j).any (pathEligible old) = true) := by
  refine ⟨updateJsonlLoop_counts old new dryRun 0 files,
    fun f _ => replaceInFileCore_count_le old new f.2, fun l hl => ?_⟩
  obtain ⟨h1, h2⟩ := processLine_changed_only_if old new l hl
  refine ⟨h1, fun j hj => ⟨h2 j hj, ?_⟩⟩
  have hr := h2 j hj
  cases j with
  | arr items =>
    rw [show replace_path_values old new (.arr items) = rpvItem old new (.arr items)
      from rfl] at hr
    rw [(rpvItem_strVals old new (.arr items)).2] at hr
    exact hr
  | obj fields =>
    rw [show replace_path_values old new (.obj fields) = rpvItem old new (.obj fields)
      from rfl] at hr
    rw [(rpvItem_strVals old new (.obj fields)).2] at hr
    exact hr
  | str s => simp [replace_path_values] at hr
  | num n => simp [replace_path_values] at hr
  | bool b => simp [replace_path_values] at hr
  | null => simp [replace_path_values] at hr

/-! # C6 / C10 : index merge -/

theorem updateEntryPaths_sessionId (old new oldEnc newEnc : String) (e : SEntry) :
    ((updateEntryPaths old new oldEnc newEnc e).1).sessionId = e.sessionId := by
  simp [updateEntryPaths]

theorem mergeLoop_spec (old new oldEnc newEnc : String) (ids : List (Option String))
    (es : List SEntry) :
    mergeLoop old new oldEnc newEnc ids es =
      ((es.filter (fun e => !(ids.contains e.sessionId))).map
          (fun e => (updateEntryPaths old new oldEnc newEnc e).1),
       (es.filter (fun e => !(ids.contains e.sessionId))).length,
       (es.filter (fun e => ids.contains e.sessionId)).map (fun e => e.sessionId)) := by
  induction es with
  | nil => simp [mergeLoop]
  | cons e rest ih =>
    by_cases h : e.sessionId ∈ ids <;>
      simp [mergeLoop, h, ih, List.filter_cons]

/-- `merge_sessions_index` on two present, parseable indices, in closed
form. -/
theorem merge_sessions_index_eq (old new newEnc : String) (dryRun : Bool)
    (d s : IndexData) :
    merge_sessions_index old new newEnc dryRun (some d) (some s) =
      if 0 < (s.entries.filter
            (fun e => !((d.entries.map (fun e => e.sessionId)).contains e.sessionId))).length ∧
          ¬ dryRun then
        { index := some { d with
            originalPath := if d.originalPath = some old then some new else d.originalPath
            entries := d.entries ++ (s.entries.filter
              (fun e => !((d.entries.map (fun e => e.sessionId)).contains e.sessionId))).map
              (fun e => (updateEntryPaths old new (encode_path old) newEnc e).1) }
          merged := (s.entries.filter
            (fun e => !((d.entries.map (fun e => e.sessionId)).contains e.sessionId))).length
          warnings := (s.entries.filter
            (fun e => (d.entries.map (fun e => e.sessionId)).contains e.sessionId)).map
            (fun e => e.sessionId)
          written := true }
      else
        { index := some d
          merged := (s.entries.filter
            (fun e => !((d.entries.map (fun e => e.sessionId)).contains e.sessionId))).length
          warnings := (s.entries.filter
            (fun e => (d.entries.map (fun e => e.sessionId)).contains e.sessionId)).map
            (fun e => e.sessionId)
          written := false } := by
  simp only [merge_sessions_index, mergeLoop_spec]

theorem merge_sessions_index_merged (old new newEnc : String) (dryRun : Bool)
    (d s : IndexData) :
    (merge_sessions_index old new newEnc dryRun (some d) (some s)).merged =
      (s.entries.filter
        (fun e => !((d.entries.map (fun e => e.sessionId)).contains e.sessionId))).length := by
  rw [merge_sessions_index_eq]
  split <;> rfl

theorem merge_sessions_index_warnings (old new newEnc : String) (dryRun : Bool)
    (d s : IndexData) :
    (merge_sessions_index old new newEnc dryRun (some d) (some s)).warnings =
      (s.entries.filter
        (fun e => (d.entries.map (fun e => e.sessionId)).contains e.sessionId)).map
        (fun e => e.sessionId) := by
  rw [merge_sessions_index_eq]
  split <;> rfl

/-- C10: during a merge, the destination id set used for skipping is the
one computed from the destination before any entry is appended: the merged
count and appended entries are exactly those of the source entries whose
`sessionId` was absent from the pre-merge destination, each rewritten and
appended in source order; consequently two source entries sharing a
`sessionId` absent from the destination are both appended and both
counted. -/
theorem merge_skip_set_is_premerge_snapshot (old new newEnc : String) (dryRun : Bool)
    (d s : IndexData) :
    (merge_sessions_index old new newEnc dryRun (some d) (some s)).merged =
      (s.entries.filter
        (fun e => !((d.entries.map (fun e => e.sessionId)).contains e.sessionId))).length ∧
    ((merge_sessions_index old new newEnc dryRun (some d) (some s)).written = true →
      (merge_sessions_index old new newEnc dryRun (some d) (some s)).index =
        some { d with
          originalPath := if d.originalPath = some old then some new else d.originalPath
          entries := d.entries ++
            (s.entries.filter
              (fun e => !((d.entries.map (fun e => e.sessionId)).contains e.sessionId))).map
              (fun e => (updateEntryPaths old new (encode_path old) newEnc e).1) }) ∧
    (∀ e1 e2 x, s.entries = [e1, e2] → e1.sessionId = some x → e2.sessionId = some x →
      ((d.entries.map (fun e => e.sessionId)).contains (some x)) = false →
      (merge_sessions_index old new newEnc dryRun (some d) (some s)).merged = 2) := by
  refine ⟨merge_sessions_index_merged old new newEnc dryRun d s, ?_, ?_⟩
  · intro hw
    rw [merge_sessions_index_eq] at hw ⊢
    split at hw
    · rw [if_pos (by assumption)]
    · cases hw
  · intro e1 e2 x hs h1 h2 hab
    rw [merge_sessions_index_merged, hs]
    simp only [List.filter_cons, List.filter_nil, h1, h2, hab, Bool.not_false, if_true,
      List.length_cons, List.length_nil]

/-- C6: when both indices contain a session with identifier `x` (the
destination exactly once), the merge result contains for `x` exactly the
destination's original entry — every source entry with that id is skipped
and contributes zero to the merged count — a duplicate warning naming `x`
is emitted, and the destination index file is written iff at least one
entry was merged and dry-run is off. -/
theorem merge_duplicate_session_handling (old new newEnc : String) (dryRun : Bool)
    (d s : IndexData) (x : String)
    (hone : (d.entries.filter (fun e => e.sessionId == some x)).length = 1)
    (hsrc : ∃ e ∈ s.entries, e.sessionId = some x) :
    (∀ di, (merge_sessions_index old new newEnc dryRun (some d) (some s)).index = some di →
      di.entries.filter (fun e => e.sessionId == some x) =
        d.entries.filter (fun e => e.sessionId == some x)) ∧
    (some x) ∈ (merge_sessions_index old new newEnc dryRun (some d) (some s)).warnings ∧
    (∀ e ∈ s.entries, e.sessionId = some x →
      ((d.entries.map (fun e => e.sessionId)).contains e.sessionId) = true) ∧
    (merge_sessions_index old new newEnc dryRun (some d) (some s)).merged =
      (s.entries.filter
        (fun e => !((d.entries.map (fun e => e.sessionId)).contains e.sessionId))).length ∧
    ((merge_sessions_index old new newEnc dryRun (some d) (some s)).written = true ↔
      (0 < (merge_sessions_index old new newEnc dryRun (some d) (some s)).merged ∧
        dryRun = false)) := by
  have hdst : ((d.entries.map (fun e => e.sessionId)).contains (some x)) = true := by
    obtain ⟨a, ha⟩ := List.exists_mem_of_length_pos
      (l := d.entries.filter (fun e => e.sessionId == some x)) (by omega)
    have hm := List.mem_filter.mp ha
    have hax : a.sessionId = some x := eq_of_beq hm.2
    exact List.elem_eq_true_of_mem (List.mem_map.mpr ⟨a, hm.1, hax⟩)
  refine ⟨?_, ?_, ?_, merge_sessions_index_merged old new newEnc dryRun d s, ?_⟩
  · intro di hdi
    rw [merge_sessions_index_eq] at hdi
    split at hdi
    · cases hdi
      have happ : ((s.entries.filter
          (fun e => !((d.entries.map (fun e => e.sessionId)).contains e.sessionId))).map
            (fun e => (updateEntryPaths old new (encode_path old) newEnc e).1)).filter
            (fun e => e.sessionId == some x) = [] := by
        refine List.filter_eq_nil_iff.mpr fun a ha => ?_
        obtain ⟨e, hef, rfl⟩ := List.mem_map.mp ha
        have hmf := List.mem_filter.mp hef
        intro hq
        have hex : e.sessionId = some x := by
          have := eq_of_beq hq
          rwa [updateEntryPaths_sessionId] at this
        rw [hex, hdst] at hmf
        simp at hmf
      simp only [List.filter_append, happ, List.append_nil]
    · cases hdi
      rfl
  · rw [merge_sessions_index_warnings]
    obtain ⟨e, he, hex⟩ := hsrc
    exact List.mem_map.mpr ⟨e, List.mem_filter.mpr ⟨he, by rw [hex]; exact hdst⟩, hex⟩
  · intro e he hex
    rw [hex]
    exact hdst
  · rw [merge_sessions_index_eq]
    split
    · next h =>
      constructor
      · intro
        exact ⟨h.1, by simpa using h.2⟩
      · intro
        rfl
    · next h =>
      constructor
      · intro hw
        cases hw
      · intro hcon
        exact absurd ⟨hcon.1, by simp [hcon.2]⟩ h

theorem merge_duplicate_session_handling_witness :
    (some "X") ∈ (merge_sessions_index "/a" "/b" "-b" false
      (some { originalPath := some "/a"
              entries := [{ sessionId := some "X", projectPath := some "/a",
                            fullPath := "", meta := "" }]
              meta := "" })
      (some { originalPath := some "/a"
              entries := [{ sessionId := some "X", projectPath := some "/a",
                            fullPath := "", meta := "old" }]
              meta := "" })).warnings :=
  (merge_duplicate_session_handling "/a" "/b" "-b" false _ _ "X" (by decide)
    ⟨{ sessionId := some "X", projectPath := some "/a", fullPath := "", meta := "old" },
      by simp, rfl⟩).2.1

/-! # C3 : dry-run performs no filesystem mutation -/

theorem replace_in_file_dry (old new : String) (wo : WriteOutcome) (v : FileView) :
    (replace_in_file old new true wo v).1 = v ∧
    ∃ c, (replace_in_file old new true wo v).2 = .ok c := by
  cases v with
  | mk content te =>
    cases content with
    | none => exact ⟨rfl, 0, rfl⟩
    | some lines =>
      constructor
      · simp [replace_in_file]
      · exact ⟨(replaceInFileCore old new lines).2, by simp [replace_in_file]⟩

theorem update_history_dry (old new : String) (wo : WriteOutcome)
    (h : Option (List LineRec)) :
    (update_history old new true wo h).1 = h ∧
    ∃ c, (update_history old new true wo h).2 = .ok c := by
  obtain ⟨h1, c, h2⟩ := replace_in_file_dry old new wo { content := h, tempExists := false }
  exact ⟨by simp [update_history, h1], c, by simp [update_history, h2]⟩

theorem update_sessions_index_dry (old new newEnc : String) (fault : Bool)
    (idx : Option IndexData) :
    (update_sessions_index old new newEnc true fault idx).1 = idx ∧
    ∃ c, (update_sessions_index old new newEnc true fault idx).2 = .ok c := by
  cases idx with
  | none => exact ⟨rfl, 0, rfl⟩
  | some d =>
    constructor
    · simp [update_sessions_index]
    · exact ⟨(if (updateIndexData old new newEnc d).2 = true then 1 else 0),
        by simp [update_sessions_index]⟩

theorem updateJsonlLoop_dry (old new : String) (fault : Option Nat) (k : Nat)
    (files : List (String × List LineRec)) :
    (updateJsonlLoop old new true fault k files).1 = files ∧
    ∃ c, (updateJsonlLoop old new true fault k files).2 = .ok c := by
  induction files generalizing k with
  | nil => exact ⟨rfl, (0, 0), rfl⟩
  | cons f rest ih =>
    obtain ⟨name, lines⟩ := f
    obtain ⟨hv, c, hc⟩ := replace_in_file_dry old new
      (if fault = some k then .writeFail else .success)
      { content := some lines, tempExists := false }
    obtain ⟨ih1, c', ih2⟩ := ih (k + 1)
    constructor
    · simp [updateJsonlLoop, hc, hv, ih2, ih1]
    · exact ⟨(if 0 < c then c'.1 + 1 else c'.1, c'.2 + c),
        by simp [updateJsonlLoop, hc, hv, ih2, ih1]⟩

theorem merge_sessions_index_dry_not_written (old new newEnc : String)
    (dst src : Option IndexData) :
    (merge_sessions_index old new newEnc true dst src).written = false := by
  cases dst with
  | none => rfl
  | some d =>
    cases src with
    | none => rfl
    | some s =>
      rw [merge_sessions_index_eq]
      rw [if_neg (by simp)]

theorem lookupL_bind_eq (wk : Option String) (ps : List (String × ProjDir))
    (k : String) (dir : ProjDir)
    (h : wk.bind (fun k => (lookupL ps k).map (fun d => (k, d))) = some (k, dir)) :
    wk = some k ∧ lookupL ps k = some dir := by
  cases wk with
  | none => cases h
  | some k0 =>
    cases hl : lookupL ps k0 with
    | none => simp [Option.bind, hl] at h
    | some d0 =>
      simp [Option.bind, hl] at h
      exact ⟨by rw [h.1], by rw [← h.1, hl, h.2]⟩

theorem setL_of_lookup_eq {α : Type} [DecidableEq α] (l : List (String × α))
    (k : String) (v : α) (h : lookupL l k = some v) : setL l k v = l := by
  simp [setL, h]

theorem _update_data_files_dry (fault : Fault) (wk : Option String)
    (old new newEnc : String) (res : MoveResult) (fs : FS) :
    (_update_data_files fault wk old new newEnc true res fs).1 = fs ∧
    ∃ r, (_update_data_files fault wk old new newEnc true res fs).2 = .ok r := by
  obtain ⟨hh1, hc, hh2⟩ := update_history_dry old new
    (if fault = .historyWrite then .writeFail else .success) fs.history
  cases hwk : wk.bind (fun k => (lookupL fs.projects k).map (fun d => (k, d))) with
  | none =>
    constructor
    · simp [_update_data_files, hwk, hh2, hh1]
    · exact ⟨{ res with history_lines_changed := hc },
        by simp [_update_data_files, hwk, hh2, hh1]⟩
  | some kd =>
    obtain ⟨k, dir⟩ := kd
    obtain ⟨hwk', hl⟩ := lookupL_bind_eq wk fs.projects k dir hwk
    obtain ⟨hi1, ic, hi2⟩ := update_sessions_index_dry old new newEnc
      (fault = Fault.indexWrite) dir.index
    obtain ⟨hl1, lc, hl2⟩ := updateJsonlLoop_dry old new (Fault.logFault fault) 0 dir.logs
    have hset1 : setL fs.projects k { dir with index := dir.index } = fs.projects := by
      rw [show ({ dir with index := dir.index } : ProjDir) = dir from rfl]
      exact setL_of_lookup_eq fs.projects k dir hl
    have hset2 : setL fs.projects k { dir with index := dir.index, logs := dir.logs } =
        fs.projects := by
      rw [show ({ dir with index := dir.index, logs := dir.logs } : ProjDir) = dir from rfl]
      exact setL_of_lookup_eq fs.projects k dir hl
    constructor
    · simp [_update_data_files, hwk, hi2, hi1, update_jsonl_files, hl2, hl1, hset1,
        hset2, hh2, hh1]
    · exact ⟨{ res with
          sessions_index_updated := ic
          jsonl_files_updated := lc.1
          jsonl_lines_changed := lc.2
          history_lines_changed := hc },
        by simp [_update_data_files, hwk, hi2, hi1, update_jsonl_files, hl2,
          hl1, hset1, hset2, hh2, hh1]⟩

theorem _update_data_files_dry_fs (fault : Fault) (wk : Option String)
    (old new newEnc : String) (res : MoveResult) (fs : FS) :
    (_update_data_files fault wk old new newEnc true res fs).1 = fs :=
  (_update_data_files_dry fault wk old new newEnc res fs).1

theorem _rename_and_update_dry (fault : Fault) (pk : Option String)
    (newEnc old new : String) (merge : Bool) (res : MoveResult) (fs : FS) :
    (_rename_and_update fault pk newEnc old new true merge res fs).1 = fs := by
  cases hb : pk.bind (fun pk => (lookupL fs.projects pk).map (fun pd => (pk, pd))) with
  | none =>
    simp [_rename_and_update, hb, _update_data_files_dry_fs]
  | some pkpd =>
    obtain ⟨pk', pd⟩ := pkpd
    cases hdst : lookupL fs.projects newEnc with
    | some dstDir =>
      by_cases hm : merge = true
      · have hw := merge_sessions_index_dry_not_written old new newEnc
          dstDir.index pd.index
        simp [_rename_and_update, hb, hdst, hm, hw, _update_data_files_dry_fs]
      · simp [_rename_and_update, hb, hdst, hm]
    | none =>
      simp [_rename_and_update, hb, hdst, _update_data_files_dry_fs]

theorem _prepare_operation_dry (old new : String) (noBackup merge : Bool) (fs : FS) :
    _prepare_operation old new true noBackup merge fs =
      (fs, { result := { dry_run := true },
             projectKey := find_project_dir fs.projects old,
             newEnc := encode_path new }) := by
  cases hf : find_project_dir fs.projects old with
  | none => simp [_prepare_operation, hf]
  | some pk => simp [_prepare_operation, hf]

theorem rollbackFS_dry (movedBack : Bool) (old new : String) (bp : Option Nat)
    (fs2 : FS) : rollbackFS movedBack old new bp true fs2 = fs2 := by
  simp [rollbackFS]

/-- C3: in dry-run mode neither `move_project` nor `remap_project` mutates
the filesystem state in any way — real directories, stored project
directories, the index / log / history files, and the backups directory
are all exactly as before (so every touched file is byte-identical),
whether the run succeeds or fails, and for any injected I/O fault
point. -/
theorem dry_run_no_mutation (fault : Fault) (oldPath newPath : String)
    (noBackup merge : Bool) (fs : FS) :
    (move_project fault oldPath newPath true noBackup merge fs).1 = fs ∧
    (remap_project fault oldPath newPath true noBackup merge fs).1 = fs := by
  have hra := fun res => _rename_and_update_dry fault (find_project_dir fs.projects oldPath)
    (encode_path newPath) oldPath newPath merge res fs
  constructor
  · by_cases h1 : oldPath = newPath
    · simp [move_project, h1]
    · cases hold : lookupL fs.realDirs oldPath with
      | none => simp [move_project, h1, hold]
      | some oldDir =>
        cases htr : _rename_and_update fault (find_project_dir fs.projects oldPath)
          (encode_path newPath) oldPath newPath true merge { dry_run := true } fs with
        | mk fs2 ex =>
          have h2 := hra { dry_run := true }
          rw [htr] at h2
          simp only [move_project, h1, hold, _prepare_operation_dry, not_true,
            ite_false, ite_true]
          split
          · rfl
          · rw [htr]
            cases ex with
            | ok r => exact h2
            | error e =>
              show rollbackFS true oldPath newPath none true fs2 = fs
              rw [rollbackFS_dry]
              exact h2
  · by_cases h1 : oldPath = newPath
    · simp [remap_project, h1]
    · by_cases h2 : (lookupL fs.realDirs newPath).isNone
      · simp [remap_project, h1, h2]
      · cases htr : _rename_and_update fault (find_project_dir fs.projects oldPath)
          (encode_path newPath) oldPath newPath true merge { dry_run := true } fs with
        | mk fs2 ex =>
          have h3 := hra { dry_run := true }
          rw [htr] at h3
          simp only [remap_project, h1, _prepare_operation_dry, not_true,
            ite_false, ite_true]
          rw [if_neg (by simpa using h2), htr]
          cases ex with
          | ok r => exact h3
          | error e =>
            show rollbackFS false oldPath newPath none true fs2 = fs
            rw [rollbackFS_dry]
            exact h3

/-! # C9 : untracked project — history rewritten with no backup -/

theorem update_history_success_ok (old new : String) (dryRun : Bool)
    (h : Option (List LineRec)) :
    ∃ c, (update_history old new dryRun .success h).2 = .ok c := by
  cases h with
  | none => exact ⟨0, rfl⟩
  | some lines =>
    refine ⟨(replaceInFileCore old new lines).2, ?_⟩
    simp [update_history, replace_in_file_success_eq]

theorem _update_data_files_none (fault : Fault) (old new newEnc : String)
    (dryRun : Bool) (res : MoveResult) (fs : FS) (hf : fault ≠ .historyWrite) :
    ∃ c, _update_data_files fault none old new newEnc dryRun res fs =
      ({ fs with history := (update_history old new dryRun .success fs.history).1 },
       .ok { res with history_lines_changed := c }) := by
  obtain ⟨c, hc⟩ := update_history_success_ok old new dryRun fs.history
  refine ⟨c, ?_⟩
  have hwo : (if fault = Fault.historyWrite then WriteOutcome.writeFail
      else WriteOutcome.success) = WriteOutcome.success := if_neg hf
  simp [_update_data_files, Option.bind, hwo, hc]

theorem _rename_and_update_none (fault : Fault) (newEnc old new : String)
    (dryRun merge : Bool) (res : MoveResult) (fs : FS) :
    _rename_and_update fault none newEnc old new dryRun merge res fs =
      _update_data_files fault none old new newEnc dryRun res fs := by
  simp [_rename_and_update, Option.bind]

theorem _prepare_operation_nofind (old new : String) (dryRun noBackup merge : Bool)
    (fs : FS) (hfind : find_project_dir fs.projects old = none) :
    _prepare_operation old new dryRun noBackup merge fs =
      (fs, { result := { dry_run := dryRun }, projectKey := none,
             newEnc := encode_path new }) := by
  simp [_prepare_operation, hfind]

/-- C9: with backups enabled and dry-run off, when the locator finds no
stored project directory for the old path, no backup is created — the
backups directory is untouched and the result carries no backup location —
yet both `move_project` and `remap_project` still proceed to rewrite
matching lines of the global history file, so this history mutation
happens without any backup. -/
theorem untracked_history_rewrite_without_backup
    (oldPath newPath : String) (merge : Bool) (fs : FS)
    (hfind : find_project_dir fs.projects oldPath = none)
    (hne : oldPath ≠ newPath) :
    (∀ od, lookupL fs.realDirs oldPath = some od →
      (∀ dd, lookupL fs.realDirs newPath = some dd → dd.isEmpty = true) →
      ∃ res, move_project .noFault oldPath newPath false false merge fs =
        ({ fs with
            realDirs := setL (eraseL (eraseL fs.realDirs newPath) oldPath) newPath od
            history := (update_history oldPath newPath false .success fs.history).1 },
         .ok res) ∧ res.backupPath = none) ∧
    ((lookupL fs.realDirs newPath).isSome →
      ∃ res, remap_project .noFault oldPath newPath false false merge fs =
        ({ fs with
            history := (update_history oldPath newPath false .success fs.history).1 },
         .ok res) ∧ res.backupPath = none) := by
  constructor
  · intro od hod hdest
    have hnewEmpty : (match lookupL fs.realDirs newPath with
        | some d => !d.isEmpty | none => false) = false := by
      cases hnew : lookupL fs.realDirs newPath with
      | none => rfl
      | some dd => simp [hdest dd hnew]
    obtain ⟨c, hudf⟩ := _update_data_files_none .noFault oldPath newPath
      (encode_path newPath) false { dry_run := false }
      { fs with realDirs := setL (eraseL (eraseL fs.realDirs newPath) oldPath) newPath od }
      (by simp)
    refine ⟨{ dry_run := false, history_lines_changed := c }, ?_, rfl⟩
    simp only [move_project, hne, hod, hnewEmpty, ite_false, ite_true,
      Bool.false_eq_true, not_false_eq_true,
      show (Fault.noFault = Fault.physMove) = False by simp,
      _prepare_operation_nofind oldPath newPath false false merge fs hfind]
    rw [_rename_and_update_none, hudf]
  · intro hnewSome
    obtain ⟨c, hudf⟩ := _update_data_files_none .noFault oldPath newPath
      (encode_path newPath) false { dry_run := false } fs (by simp)
    have hnn : ¬ ((lookupL fs.realDirs newPath).isNone = true) := by
      cases hnew : lookupL fs.realDirs newPath with
      | none => rw [hnew] at hnewSome; cases hnewSome
      | some dd => simp
    refine ⟨{ dry_run := false, history_lines_changed := c }, ?_, rfl⟩
    simp only [remap_project, _prepare_operation_nofind oldPath newPath false false
      merge fs hfind]
    rw [if_neg hne, if_neg hnn]
    rw [_rename_and_update_none, hudf]

/-! # C2 : rollback on failure after the physical move -/

theorem update_history_none (old new : String) (dryRun : Bool) (wo : WriteOutcome) :
    (update_history old new dryRun wo none).1 = none := rfl

/-- Shape of `_update_data_files` results: real directories and backups are
never touched, a missing history file is never created, and every raised
error is an `OSError`. -/
theorem _update_data_files_shape (fault : Fault) (wk : Option String)
    (old new newEnc : String) (dryRun : Bool) (res : MoveResult) (fs : FS) :
    (_update_data_files fault wk old new newEnc dryRun res fs).1.realDirs = fs.realDirs ∧
    (_update_data_files fault wk old new newEnc dryRun res fs).1.backups = fs.backups ∧
    (fs.history = none →
      (_update_data_files fault wk old new newEnc dryRun res fs).1.history = none) ∧
    (∀ e, (_update_data_files fault wk old new newEnc dryRun res fs).2 = .error e →
      ∃ m, e = MvErr.osError m) := by
  cases hwk : wk.bind (fun k => (lookupL fs.projects k).map (fun d => (k, d))) with
  | none =>
    cases hh : (update_history old new dryRun
        (if fault = Fault.historyWrite then .writeFail else .success) fs.history).2 with
    | ok c =>
      refine ⟨?_, ?_, ?_, ?_⟩
      · simp [_update_data_files, hwk, hh]
      · simp [_update_data_files, hwk, hh]
      · intro h0
        simp only [_update_data_files, hwk, h0, update_history_none]
        split <;> rfl
      · intro e he
        simp [_update_data_files, hwk, hh] at he
    | error u =>
      refine ⟨?_, ?_, ?_, ?_⟩
      · simp [_update_data_files, hwk, hh]
      · simp [_update_data_files, hwk, hh]
      · intro h0
        simp only [_update_data_files, hwk, h0, update_history_none]
        split <;> rfl
      · intro e he
        simp only [_update_data_files, hwk, hh] at he
        exact ⟨"history write failed", by
          have := he
          cases this
          rfl⟩
  | some kd =>
    obtain ⟨k, dir⟩ := kd
    cases hri : (update_sessions_index old new newEnc dryRun
        (fault = Fault.indexWrite) dir.index).2 with
    | error u =>
      refine ⟨?_, ?_, ?_, ?_⟩
      · simp [_update_data_files, hwk, hri]
      · simp [_update_data_files, hwk, hri]
      · intro h0; simp [_update_data_files, hwk, hri, h0]
      · intro e he
        simp only [_update_data_files, hwk, hri] at he
        exact ⟨"index write failed", by cases he; rfl⟩
    | ok ic =>
      cases hrl : (update_jsonl_files old new dryRun (Fault.logFault fault)
          dir.logs).2 with
      | error u =>
        refine ⟨?_, ?_, ?_, ?_⟩
        · simp [_update_data_files, hwk, hri, hrl]
        · simp [_update_data_files, hwk, hri, hrl]
        · intro h0; simp [_update_data_files, hwk, hri, hrl, h0]
        · intro e he
          simp only [_update_data_files, hwk, hri, hrl] at he
          exact ⟨"log write failed", by cases he; rfl⟩
      | ok fc =>
        cases hh : (update_history old new dryRun
            (if fault = Fault.historyWrite then .writeFail else .success)
            fs.history).2 with
        | ok c =>
          refine ⟨?_, ?_, ?_, ?_⟩
          · simp [_update_data_files, hwk, hri, hrl, hh]
          · simp [_update_data_files, hwk, hri, hrl, hh]
          · intro h0
            simp only [_update_data_files, hwk, hri, hrl, h0, update_history_none]
            split <;> rfl
          · intro e he
            simp [_update_data_files, hwk, hri, hrl, hh] at he
        | error u =>
          refine ⟨?_, ?_, ?_, ?_⟩
          · simp [_update_data_files, hwk, hri, hrl, hh]
          · simp [_update_data_files, hwk, hri, hrl, hh]
          · intro h0
            simp only [_update_data_files, hwk, hri, hrl, h0, update_history_none]
            split <;> rfl
          · intro e he
            simp only [_update_data_files, hwk, hri, hrl, hh] at he
            exact ⟨"history write failed", by cases he; rfl⟩

theorem _update_data_files_realDirs (fault : Fault) (wk : Option String)
    (old new newEnc : String) (dryRun : Bool) (res : MoveResult) (fs : FS) :
    (_update_data_files fault wk old new newEnc dryRun res fs).1.realDirs = fs.realDirs :=
  (_update_data_files_shape fault wk old new newEnc dryRun res fs).1

theorem _update_data_files_backups (fault : Fault) (wk : Option String)
    (old new newEnc : String) (dryRun : Bool) (res : MoveResult) (fs : FS) :
    (_update_data_files fault wk old new newEnc dryRun res fs).1.backups = fs.backups :=
  (_update_data_files_shape fault wk old new newEnc dryRun res fs).2.1

theorem _update_data_files_history_none (fault : Fault) (wk : Option String)
    (old new newEnc : String) (dryRun : Bool) (res : MoveResult) (fs : FS)
    (h : fs.history = none) :
    (_update_data_files fault wk old new newEnc dryRun res fs).1.history = none :=
  (_update_data_files_shape fault wk old new newEnc dryRun res fs).2.2.1 h

/-- Shape of `_rename_and_update` results: real directories and backups are
never touched, a missing history file is never created, and every raised
error is an `OSError` or a `MoveError`. -/
theorem _rename_and_update_shape (fault : Fault) (pk : Option String)
    (newEnc old new : String) (dryRun merge : Bool) (res : MoveResult) (fs : FS) :
    (_rename_and_update fault pk newEnc old new dryRun merge res fs).1.realDirs =
      fs.realDirs ∧
    (_rename_and_update fault pk newEnc old new dryRun merge res fs).1.backups =
      fs.backups ∧
    (fs.history = none →
      (_rename_and_update fault pk newEnc old new dryRun merge res fs).1.history = none) ∧
    (∀ e, (_rename_and_update fault pk newEnc old new dryRun merge res fs).2 = .error e →
      (∃ m, e = MvErr.osError m) ∨ (∃ m, e = MvErr.moveError m)) := by
  refine ⟨?_, ?_, ?_, ?_⟩
  · unfold _rename_and_update
    repeat' split
    all_goals try simp [_update_data_files_realDirs]
    all_goals split_ifs <;> simp [_update_data_files_realDirs]
  · unfold _rename_and_update
    repeat' split
    all_goals try simp [_update_data_files_backups]
    all_goals split_ifs <;> simp [_update_data_files_backups]
  · intro h0
    unfold _rename_and_update
    repeat' split
    all_goals try simp [_update_data_files_history_none, h0]
    all_goals split_ifs <;> simp [_update_data_files_history_none, h0]
  · intro e he
    unfold _rename_and_update at he
    dsimp only at he
    repeat' split at he
    all_goals
      first
        | exact Or.inl ((_update_data_files_shape _ _ _ _ _ _ _ _).2.2.2 _ he)
        | (cases he
           first | exact Or.inl ⟨_, rfl⟩ | exact Or.inr ⟨_, rfl⟩)

theorem find_project_dir_lookup_isSome (ps : List (String × ProjDir)) (old pk : String)
    (h : find_project_dir ps old = some pk) : (lookupL ps pk).isSome := by
  unfold find_project_dir at h
  cases hl : lookupL ps (encode_path old) with
  | some d =>
    rw [hl] at h
    cases h
    rw [hl]
    rfl
  | none =>
    rw [hl] at h
    cases hf : ps.find? (fun p => indexMatches old p.2) with
    | none => rw [hf] at h; cases h
    | some q =>
      rw [hf] at h
      simp only [Option.map_some] at h
      cases h
      exact lookupL_isSome_of_find? ps _ q hf

theorem _prepare_operation_found (old new : String) (merge : Bool) (fs : FS)
    (pk : String) (hfind : find_project_dir fs.projects old = some pk) :
    _prepare_operation old new false false merge fs =
      ({ fs with backups := fs.backups ++ [create_backup fs.projects fs.history pk
          (if merge ∧ (lookupL fs.projects (encode_path new)).isSome
           then some (encode_path new) else none)] },
       { result := { backupPath := some fs.backups.length }
         projectKey := some pk
         newEnc := encode_path new }) := by
  simp [_prepare_operation, hfind]

/-- The restore step of the rollback puts the backed-up project directory
copy and history copy back at their original locations. -/
theorem restore_create_backup (fsps : List (String × ProjDir))
    (fsh : Option (List LineRec)) (pk : String) (extra : Option String)
    (pd : ProjDir) (hpd : lookupL fsps pk = some pd)
    (hextra : ∀ k, extra = some k → (lookupL fsps k).isSome)
    (ps2 : List (String × ProjDir)) (h2 : Option (List LineRec)) :
    lookupL (restore_backup_fs (create_backup fsps fsh pk extra) ps2 h2).1 pk =
      some pd ∧
    (restore_backup_fs (create_backup fsps fsh pk extra) ps2 h2).2 =
      (match fsh with | some hc => some hc | none => h2) := by
  cases hx : extra with
  | none =>
    constructor
    · simp only [restore_backup_fs, create_backup, hpd, Option.bind]
      exact lookupL_setL_self ps2 pk pd
    · simp only [restore_backup_fs, create_backup, hpd, Option.bind]
  | some ne =>
    obtain ⟨dd, hdd⟩ := Option.isSome_iff_exists.mp (hextra ne hx)
    constructor
    · simp only [restore_backup_fs, create_backup, hpd, hx, Option.bind, hdd]
      by_cases hpe : pk = ne
      · subst hpe
        rw [hpd] at hdd
        cases hdd
        exact lookupL_setL_self _ pk pd
      · rw [lookupL_setL_ne _ ne pk dd hpe]
        exact lookupL_setL_self ps2 pk pd
    · simp only [restore_backup_fs, create_backup, hpd, hx, Option.bind, hdd]

/-- What the rollback of `move_project` computes, given the backup created
by `_prepare_operation` and the try-block's exit state. -/
theorem rollback_after_failure (oldPath newPath : String) (fs fs2 : FS)
    (pk : String) (pd : ProjDir) (extra : Option String)
    (hpd : lookupL fs.projects pk = some pd)
    (hextra : ∀ k, extra = some k → (lookupL fs.projects k).isSome)
    (hbk : fs2.backups = fs.backups ++ [create_backup fs.projects fs.history pk extra])
    (hh : fs.history = none → fs2.history = none) :
    lookupL (rollbackFS true oldPath newPath (some fs.backups.length) false fs2).projects
      pk = some pd ∧
    (rollbackFS true oldPath newPath (some fs.backups.length) false fs2).history =
      fs.history ∧
    (lookupL fs2.realDirs newPath = none →
      (rollbackFS true oldPath newPath (some fs.backups.length) false fs2).realDirs =
        fs2.realDirs) ∧
    (∀ d, lookupL fs2.realDirs newPath = some d → lookupL fs2.realDirs oldPath = none →
      (rollbackFS true oldPath newPath (some fs.backups.length) false fs2).realDirs =
        setL (eraseL fs2.realDirs newPath) oldPath d) := by
  obtain ⟨hr1, hr2⟩ := restore_create_backup fs.projects fs.history pk extra pd hpd
    hextra fs2.projects fs2.history
  have hget : (some fs.backups.length).bind (fun i => fs2.backups[i]?) =
      some (create_backup fs.projects fs.history pk extra) := by
    simp [Option.bind, hbk, List.getElem?_concat_length]
  simp only [rollbackFS, Option.isSome_some, Bool.false_eq_true, not_false_eq_true,
    and_true, ite_true, if_pos trivial, hget, hr1, hr2]
  refine ⟨?_, ?_, ?_, ?_⟩
  · split
    · split
      · exact hr1
      · exact hr1
    · exact hr1
  · have hhist : (match fs.history with
        | some hc => some hc
        | none => fs2.history) = fs.history := by
      cases hfh : fs.history with
      | some hc => rfl
      | none => exact hh hfh
    split
    · split
      · simpa using hhist
      · simpa using hhist
    · simpa using hhist
  · intro hnone
    rw [if_neg (by simp [hnone])]
  · intro d hsome hnoneOld
    rw [if_pos (by simp [hsome, hnoneOld]), hsome]

/-- C2 amended: for every `move_project` run (dry-run off, backups enabled)
that fails after the physical directory move step, with a stored project
directory found (so a backup was taken): the backup is restored — the
stored directory at its original location and the history file hold their
pre-operation content again — and the physically moved directory is moved
back, the old path holding its original directory and nothing remaining at
the new path.  The surfaced error is the original `MoveError` unchanged
when the failure was a `MoveError` (e.g. a destination stored-directory
conflict without `--merge`), and the `OSError` wrapped in a
rollback-performed `MoveError` when the failure was an I/O error; a bare
`OSError` never escapes. -/
theorem move_failure_rollback (fault : Fault) (oldPath newPath : String)
    (merge : Bool) (fs fs' : FS) (e : MvErr) (od : RealDir) (pk : String)
    (hne : oldPath ≠ newPath)
    (hold : lookupL fs.realDirs oldPath = some od)
    (hdest : ∀ dd, lookupL fs.realDirs newPath = some dd → dd.isEmpty = true)
    (hfind : find_project_dir fs.projects oldPath = some pk)
    (hrun : move_project fault oldPath newPath false false merge fs = (fs', .error e)) :
    lookupL fs'.projects pk = lookupL fs.projects pk ∧
    fs'.history = fs.history ∧
    lookupL fs'.realDirs oldPath = some od ∧
    lookupL fs'.realDirs newPath = none ∧
    ((∃ m, e = MvErr.moveError m) ∨ (∃ m, e = MvErr.rolledBack (MvErr.osError m))) := by
  have hnewEmpty : (match lookupL fs.realDirs newPath with
      | some d => !d.isEmpty | none => false) = false := by
    cases hnew : lookupL fs.realDirs newPath with
    | none => rfl
    | some dd => simp [hdest dd hnew]
  obtain ⟨pd, hpd⟩ := Option.isSome_iff_exists.mp
    (find_project_dir_lookup_isSome fs.projects oldPath pk hfind)
  simp only [move_project, hne, hold, hnewEmpty, ite_false, ite_true,
    Bool.false_eq_true, not_false_eq_true,
    _prepare_operation_found oldPath newPath merge fs pk hfind] at hrun
  set b := create_backup fs.projects fs.history pk
    (if merge ∧ (lookupL fs.projects (encode_path newPath)).isSome
     then some (encode_path newPath) else none) with hb
  have hextra : ∀ k, (if merge ∧ (lookupL fs.projects (encode_path newPath)).isSome
      then some (encode_path newPath) else none) = some k →
      (lookupL fs.projects k).isSome := by
    intro k hk
    split at hk
    · next hcond =>
      cases hk
      exact hcond.2
    · cases hk
  by_cases hpm : fault = Fault.physMove
  · rw [if_pos hpm] at hrun
    rw [Prod.mk.injEq] at hrun
    obtain ⟨hfs', he⟩ := hrun
    injection he with he
    obtain ⟨hp, hhist, hrA, hrB⟩ := rollback_after_failure oldPath newPath fs
      { realDirs := eraseL fs.realDirs newPath
        projects := fs.projects
        history := fs.history
        backups := fs.backups ++ [b] } pk pd
      (if merge ∧ (lookupL fs.projects (encode_path newPath)).isSome
       then some (encode_path newPath) else none) hpd hextra (by rw [← hb]) (fun h0 => h0)
    have hnewNone : lookupL (eraseL fs.realDirs newPath) newPath = none :=
      lookupL_eraseL_self fs.realDirs newPath
    rw [← hfs']
    refine ⟨by rw [hp, hpd], hhist, ?_, ?_, Or.inr ⟨_, he.symm⟩⟩
    · rw [hrA hnewNone]
      exact (lookupL_eraseL_ne fs.realDirs newPath oldPath hne).trans hold
    · rw [hrA hnewNone]
      exact hnewNone
  · rw [if_neg hpm] at hrun
    have hshape := _rename_and_update_shape fault (some pk) (encode_path newPath)
      oldPath newPath false merge
      { project_dir_renamed := false
        sessions_merged := 0
        sessions_index_updated := 0
        jsonl_files_updated := 0
        jsonl_lines_changed := 0
        history_lines_changed := 0
        backupPath := some fs.backups.length
        dry_run := false }
      { realDirs := setL (eraseL (eraseL fs.realDirs newPath) oldPath) newPath od
        projects := fs.projects
        history := fs.history
        backups := fs.backups ++ [b] }
    cases hra : _rename_and_update fault (some pk) (encode_path newPath) oldPath newPath
        false merge
        { project_dir_renamed := false
          sessions_merged := 0
          sessions_index_updated := 0
          jsonl_files_updated := 0
          jsonl_lines_changed := 0
          history_lines_changed := 0
          backupPath := some fs.backups.length
          dry_run := false }
        { realDirs := setL (eraseL (eraseL fs.realDirs newPath) oldPath) newPath od
          projects := fs.projects
          history := fs.history
          backups := fs.backups ++ [b] }
      with
    | mk fs2 ex =>
      rw [hra] at hrun hshape
      cases ex with
      | ok r =>
        rw [Prod.mk.injEq] at hrun
        cases hrun.2
      | error e0 =>
        rw [Prod.mk.injEq] at hrun
        obtain ⟨hfs', he⟩ := hrun
        injection he with he
        obtain ⟨hs1, hs2, hs3, hs4⟩ := hshape
        obtain ⟨hp, hhist, hrA, hrB⟩ := rollback_after_failure oldPath newPath fs
          fs2 pk pd
          (if merge ∧ (lookupL fs.projects (encode_path newPath)).isSome
           then some (encode_path newPath) else none) hpd hextra
          (by rw [hs2, ← hb]) (fun h0 => hs3 h0)
        have hnew2 : lookupL fs2.realDirs newPath = some od := by
          rw [hs1]
          exact lookupL_setL_self _ newPath od
        have hold2 : lookupL fs2.realDirs oldPath = none := by
          rw [hs1, lookupL_setL_ne _ newPath oldPath od hne]
          exact lookupL_eraseL_self _ oldPath
        rw [← hfs']
        refine ⟨by rw [hp, hpd], hhist, ?_, ?_, ?_⟩
        · rw [hrB od hnew2 hold2]
          exact lookupL_setL_self _ oldPath od
        · rw [hrB od hnew2 hold2,
            lookupL_setL_ne _ oldPath newPath od (Ne.symm hne)]
          exact lookupL_eraseL_self _ newPath
        · rcases hs4 e0 rfl with ⟨m, hm⟩ | ⟨m, hm⟩
          · exact Or.inr ⟨m, by rw [← he, hm]; rfl⟩
          · exact Or.inl ⟨m, by rw [← he, hm]; rfl⟩

/-- C2 counterexample: a `MoveError` raised after the physical directory
move (here: the destination stored directory already exists and merge is
off) performs the rollback — the backup exists afterwards and the real
directory is back at the old path — but the error surfaced to the caller
is the bare `MoveError`, not wrapped with a note that rollback was
attempted. -/
theorem move_error_surfaced_unwrapped :
    (move_project Fault.noFault "/p/old" "/p/new" false false false conflictFS).2 =
      .error (.moveError "Destination Claude data directory already exists: -p-new") ∧
    (move_project Fault.noFault "/p/old" "/p/new" false false false
      conflictFS).1.backups.length = 1 ∧
    lookupL (move_project Fault.noFault "/p/old" "/p/new" false false false
      conflictFS).1.realDirs "/p/old" = some sampleRealDir ∧
    MvErr.isRolledBack
      (.moveError "Destination Claude data directory already exists: -p-new") = false :=
  ⟨rfl, rfl, rfl, rfl⟩

theorem move_failure_rollback_witness :
    lookupL (move_project Fault.noFault "/p/old" "/p/new" false false false
        conflictFS).1.projects "-p-old" = lookupL conflictFS.projects "-p-old" ∧
    (move_project Fault.noFault "/p/old" "/p/new" false false false
      conflictFS).1.history = conflictFS.history ∧
    lookupL (move_project Fault.noFault "/p/old" "/p/new" false false false
      conflictFS).1.realDirs "/p/old" = some sampleRealDir ∧
    lookupL (move_project Fault.noFault "/p/old" "/p/new" false false false
      conflictFS).1.realDirs "/p/new" = none ∧
    ((∃ m, MvErr.moveError "Destination Claude data directory already exists: -p-new" =
        MvErr.moveError m) ∨
     (∃ m, MvErr.moveError "Destination Claude data directory already exists: -p-new" =
        MvErr.rolledBack (MvErr.osError m))) :=
  move_failure_rollback Fault.noFault "/p/old" "/p/new" false conflictFS
    (move_project Fault.noFault "/p/old" "/p/new" false false false conflictFS).1
    (MvErr.moveError "Destination Claude data directory already exists: -p-new")
    sampleRealDir "-p-old" (by decide) rfl (fun dd hdd => nomatch hdd) rfl rfl

theorem untracked_history_rewrite_without_backup_witness :
    ∃ res, move_project Fault.noFault "/p/old" "/p/new" false false false untrackedFS =
      ({ untrackedFS with
          realDirs := setL (eraseL (eraseL untrackedFS.realDirs "/p/new") "/p/old")
            "/p/new" sampleRealDir
          history := (update_history "/p/old" "/p/new" false .success
            untrackedFS.history).1 },
       .ok res) ∧ res.backupPath = none :=
  (untracked_history_rewrite_without_backup "/p/old" "/p/new" false untrackedFS rfl
    (by decide)).1 sampleRealDir rfl (fun dd hdd => nomatch hdd)

end Claudepath
